import Mathlib

/-!
# OZ890 register / EEPROM access protocol (oz890.c)

A shallow embedding of `src/oz890.c`.

* The bus library (libmpsse: `Start`, `Write`, `GetAck`, `Read`, `SendNacks`,
  `Stop`) is external to the program; it is a parameter (`Mpsse σ`) acting on
  an abstract handle state `σ` (the global `ftdi`).
* A C function becomes a function `σ → Res σ α`.  A result is a normal return
  (`Res.ret`), process termination through `error(1, ...)` or a failed
  `assert` (`Res.exit`), or an exhausted poll budget (`Res.spin`): the
  unbounded `while (is_eeprom_busy());` loops take a fuel argument.
* Every result carries the list of register accesses performed, one event per
  `read_register` / `write_register` call (the lines the program prints at
  `debug_level >= 2`).  Other diagnostic printing is not modelled.
* `uint8_t` values are natural numbers, reduced `% 256` where the C code
  converts a wider value.
* `double` arithmetic (`adc2mv`, `read_current`) is evaluated over `ℚ`, that
  is, in exact rational arithmetic; binary64 rounding is not modelled.
-/

namespace OZ890

/-! ## Data model -/

/-- Acknowledge status reported by the bus library after a byte was written. -/
inductive Ack where
  | ACK
  | NACK
  deriving DecidableEq, Repr

/-- The libmpsse primitives used by the program, acting on the state `σ` of
the bus handle.  `Write` sends one byte, `Read` receives one byte and yields
`none` when the library returns `NULL`. -/
structure Mpsse (σ : Type) where
  Start : σ → σ
  Write : σ → Nat → σ
  GetAck : σ → Ack
  Read : σ → Option Nat × σ
  SendNacks : σ → σ
  Stop : σ → σ

/-- One register access: a `read_register` call with the value it returned, or
a `write_register` call with the value it sent. -/
inductive Ev where
  | rd (reg val : Nat)
  | wr (reg val : Nat)
  deriving DecidableEq, Repr

/-- Reasons for which the program terminates itself. -/
inductive Fatal where
  | open_failed
  | not_128_bytes
  | read_failed
  | auth_failed
  | assert_failed
  deriving DecidableEq, Repr

/-- Outcome of running a C function from a handle state: returned value, new
handle state and the register accesses performed. -/
inductive Res (σ α : Type) where
  | ret (a : α) (s : σ) (t : List Ev)
  | exit (e : Fatal) (s : σ) (t : List Ev)
  | spin

/-- Prepend already performed register accesses to an outcome. -/
def Res.emit {σ α : Type} (t0 : List Ev) : Res σ α → Res σ α
  | Res.ret a s t => Res.ret a s (t0 ++ t)
  | Res.exit e s t => Res.exit e s (t0 ++ t)
  | Res.spin => Res.spin

/-- Sequencing: run `f` after a normal return, keep a termination. -/
def Res.andThen {σ α β : Type} (r : Res σ α) (f : α → σ → Res σ β) : Res σ β :=
  match r with
  | Res.ret a s t => (f a s).emit t
  | Res.exit e s t => Res.exit e s t
  | Res.spin => Res.spin

/-- A C function acting on the bus handle. -/
def M (σ α : Type) : Type := σ → Res σ α

instance instMonadM {σ : Type} : Monad (M σ) where
  pure a := fun s => Res.ret a s []
  bind m f := fun s => (m s).andThen f

/-- Terminate the process (`error(1, ...)`, failed `assert`). -/
def fatal {σ α : Type} (e : Fatal) : M σ α := fun s => Res.exit e s []

/-- Process-wide configuration and environment of one run. -/
structure Env (σ : Type) where
  /-- the bus library behind the global handle `ftdi` -/
  mpsse : Mpsse σ
  /-- indeterminate content of the uninitialised local `rv` of `read_register` -/
  rv_uninit : σ → Nat
  /-- the global `eeprom_in`: `none` for `NULL`, else the dump file name -/
  eeprom_in : Option String
  /-- the files: `none` when `fopen` fails, else the bytes of the file -/
  fs : String → Option (List Nat)

/-- The global `address`: bus address of the device. -/
def address : Nat := 0x60

/-- The constant `eeprom_size`. -/
def eeprom_size : Nat := 128

/-! ## Register access -/

/-- The bus transaction of `read_register`: the value of `rv` at `return` and
the handle state after `Stop`. -/
def read_register_xfer {σ : Type} (E : Env σ) (reg : Nat) (ftdi : σ) : Nat × σ :=
  let rv := E.rv_uninit ftdi % 256
  let addr_reading := address ||| 1
  let ftdi := E.mpsse.Start ftdi
  let ftdi := E.mpsse.Write ftdi address
  let ftdi := E.mpsse.Write ftdi reg
  if E.mpsse.GetAck ftdi = Ack.ACK then
    let ftdi := E.mpsse.Start ftdi
    let ftdi := E.mpsse.Write ftdi addr_reading
    if E.mpsse.GetAck ftdi = Ack.ACK then
      let data := E.mpsse.Read ftdi
      let rv := match data.1 with
        | some d => d % 256
        | none => rv
      let ftdi := E.mpsse.SendNacks data.2
      let ftdi := (E.mpsse.Read ftdi).2
      (rv, E.mpsse.Stop ftdi)
    else
      (rv, E.mpsse.Stop ftdi)
  else
    (rv, E.mpsse.Stop ftdi)

/-- The function `read_register`. -/
def read_register {σ : Type} (E : Env σ) (reg : Nat) : M σ Nat := fun ftdi =>
  let r := read_register_xfer E reg ftdi
  Res.ret r.1 r.2 [Ev.rd reg r.1]

/-- The bus transaction of `write_register`: the handle state after `Stop`. -/
def write_register_xfer {σ : Type} (E : Env σ) (reg data : Nat) (ftdi : σ) : σ :=
  let ftdi := E.mpsse.Start ftdi
  let ftdi := E.mpsse.Write ftdi address
  let ftdi := E.mpsse.Write ftdi reg
  let ftdi := E.mpsse.Write ftdi data
  E.mpsse.Stop ftdi

/-- The function `write_register`. -/
def write_register {σ : Type} (E : Env σ) (reg data : Nat) : M σ Unit := fun ftdi =>
  Res.ret () (write_register_xfer E reg data ftdi) [Ev.wr reg data]

/-! ## EEPROM access and lock -/

/-- The function `is_eeprom_busy`: bit 7 of the EEPROM control register. -/
def is_eeprom_busy {σ : Type} (E : Env σ) : M σ Bool := do
  let byte ← read_register E 0x5f
  pure (byte &&& (1 <<< 7) != 0)

/-- The loop `while (is_eeprom_busy());` with at most `fuel` polls. -/
def while_eeprom_busy {σ : Type} (E : Env σ) : Nat → M σ Unit
  | 0 => fun _ => Res.spin
  | fuel + 1 => do
    let busy ← is_eeprom_busy E
    if busy then while_eeprom_busy E fuel else pure ()

/-- The function `eeprom_lock`. -/
def eeprom_lock {σ : Type} (E : Env σ) (fuel : Nat) : M σ Unit := do
  while_eeprom_busy E fuel
  write_register E 0x5f 0x00

/-- The function `read_eeprom_word`; the result is `(buf[0], buf[1])`. -/
def read_eeprom_word {σ : Type} (E : Env σ) (fuel : Nat) (addr : Nat) : M σ (Nat × Nat) :=
  match E.eeprom_in with
  | some path =>
    match E.fs path with
    | none => fatal Fatal.open_failed
    | some f =>
      if f.length < addr + 2 then fatal Fatal.read_failed
      else pure (f.getD addr 0, f.getD (addr + 1) 0)
  | none => do
    while_eeprom_busy E fuel
    write_register E 0x5e addr
    while_eeprom_busy E fuel
    write_register E 0x5f 0x55
    while_eeprom_busy E fuel
    let buf1 ← read_register E 0x5d
    while_eeprom_busy E fuel
    let buf0 ← read_register E 0x5c
    eeprom_lock E fuel
    pure (buf0, buf1)

/-- The loop of `read_eeprom` from index `i`, filling the buffer `rv`. -/
def read_eeprom_loop {σ : Type} (E : Env σ) (fuel : Nat) (i : Nat) (rv : List Nat) :
    M σ (List Nat) :=
  if i < eeprom_size then do
    let buf ← read_eeprom_word E fuel (i % 256)
    read_eeprom_loop E fuel (i + 2) ((rv.set i buf.1).set (i + 1) buf.2)
  else pure rv
termination_by eeprom_size - i
decreasing_by omega

/-- The function `read_eeprom`; the fresh buffer is overwritten entirely. -/
def read_eeprom {σ : Type} (E : Env σ) (fuel : Nat) : M σ (List Nat) :=
  read_eeprom_loop E fuel 0 (List.replicate eeprom_size 0)

/-- The function `write_eeprom_word`; `buf` is `(buf[0], buf[1])`. -/
def write_eeprom_word {σ : Type} (E : Env σ) (fuel : Nat) (addr : Nat) (buf : Nat × Nat) :
    M σ Unit := do
  while_eeprom_busy E fuel
  write_register E 0x5f 0x52
  while_eeprom_busy E fuel
  write_register E 0x5e addr
  while_eeprom_busy E fuel
  write_register E 0x5d buf.2
  while_eeprom_busy E fuel
  write_register E 0x5c buf.1
  eeprom_lock E fuel

/-- The write-back loop of `write_eeprom` from index `i`. -/
def write_eeprom_loop {σ : Type} (E : Env σ) (fuel : Nat) (contents : List Nat) (i : Nat) :
    M σ Unit :=
  if i < eeprom_size then do
    write_eeprom_word E fuel (i % 256) (contents.getD i 0, contents.getD (i + 1) 0)
    write_eeprom_loop E fuel contents (i + 2)
  else pure ()
termination_by eeprom_size - i
decreasing_by omega

/-- The function `write_eeprom`. -/
def write_eeprom {σ : Type} (E : Env σ) (fuel : Nat) (filename : String) : M σ Unit :=
  match E.fs filename with
  | none => fatal Fatal.open_failed
  | some f =>
    if 128 ≠ f.length then fatal Fatal.not_128_bytes
    else
      let contents := f.take eeprom_size
      if contents.length < eeprom_size then fatal Fatal.read_failed
      else do
        let password ← read_eeprom_word E fuel 0x7a
        while_eeprom_busy E fuel
        write_register E 0x5f 0x50
        write_register E 0x69 password.1
        write_register E 0x6a password.2
        let auth_status ← read_register E 0x6f
        eeprom_lock E fuel
        if auth_status &&& (1 <<< 6) = 0 then fatal Fatal.auth_failed
        else do
          while_eeprom_busy E fuel
          write_register E 0x5f 0x53
          write_eeprom_loop E fuel contents 0

/-! ## Telemetry decoding -/

/-- The function `adc2mv`, the product taken in exact rational arithmetic. -/
def adc2mv (sample : Int) : ℚ := 1.22 * sample

/-- The function `read_cell_voltage`. -/
def read_cell_voltage {σ : Type} (E : Env σ) (cell : Nat) : M σ Nat :=
  if cell < 13 then do
    let lo ← read_register E ((0x32 + cell * 2) % 256)
    let hi ← read_register E ((0x33 + cell * 2) % 256)
    let rv := ((hi <<< 5) + (lo >>> 3)) % 2 ^ 32
    pure rv
  else fatal Fatal.assert_failed

/-- The function `read_sense_resistor`. -/
def read_sense_resistor {σ : Type} (E : Env σ) (fuel : Nat) : M σ Nat := do
  let tmp ← read_eeprom_word E fuel 0x34
  pure (if tmp.1 ≠ 0 then tmp.1 else 25)

/-- The function `read_current`, the quotients taken in exact rational
arithmetic. -/
def read_current {σ : Type} (E : Env σ) (fuel : Nat) : M σ ℚ := do
  let lo ← read_register E 0x54
  let hi ← read_register E 0x55
  let voltage_raw : Nat := ((hi <<< 8) + lo) % 2 ^ 32
  let voltage_V : ℚ := voltage_raw * 7.63 / 1000000
  let sense ← read_sense_resistor E fuel
  let sense_Ohm : ℚ := sense / 10000.0
  pure (voltage_V / sense_Ohm)

/-! ## Traces of register accesses -/

/-- Every poll loop of the device ends: from each handle state some number of
polls of the control register finds the busy flag clear. -/
def BusyClears {σ : Type} (E : Env σ) : Prop :=
  ∀ s, ∃ n, while_eeprom_busy E n s ≠ Res.spin

/-- The accesses of one completed poll loop: reads of 0x5f that returned the
busy flag set, then one read of 0x5f that returned it clear. -/
def IsPoll (p : List Ev) : Prop :=
  ∃ (bs : List Nat) (b : Nat), p = bs.map (Ev.rd 0x5f) ++ [Ev.rd 0x5f b] ∧
    (∀ x ∈ bs, x &&& 128 ≠ 0) ∧ b &&& 128 = 0

/-- The accesses of `eeprom_lock`. -/
def LockTrace (t : List Ev) : Prop :=
  ∃ p, IsPoll p ∧ t = p ++ [Ev.wr 0x5f 0]

/-- The accesses of `read_eeprom_word` on a device, returning `(b0, b1)`. -/
def ReadWordTrace (a b0 b1 : Nat) (t : List Ev) : Prop :=
  ∃ p1 p2 p3 p4 l, IsPoll p1 ∧ IsPoll p2 ∧ IsPoll p3 ∧ IsPoll p4 ∧ LockTrace l ∧
    t = p1 ++ Ev.wr 0x5e a :: (p2 ++ Ev.wr 0x5f 0x55 ::
      (p3 ++ Ev.rd 0x5d b1 :: (p4 ++ Ev.rd 0x5c b0 :: l)))

/-- The accesses of `write_eeprom_word` for the word `(b0, b1)`. -/
def WriteWordTrace (a b0 b1 : Nat) (t : List Ev) : Prop :=
  ∃ p1 p2 p3 p4 l, IsPoll p1 ∧ IsPoll p2 ∧ IsPoll p3 ∧ IsPoll p4 ∧ LockTrace l ∧
    t = p1 ++ Ev.wr 0x5f 0x52 :: (p2 ++ Ev.wr 0x5e a ::
      (p3 ++ Ev.wr 0x5d b1 :: (p4 ++ Ev.wr 0x5c b0 :: l)))

/-- The accesses of the password handshake of `write_eeprom`, up to and
including the lock that closes it; `v` is the byte read from 0x6f. -/
def AuthTrace (pw0 pw1 v : Nat) (t : List Ev) : Prop :=
  ∃ r p l, ReadWordTrace 0x7a pw0 pw1 r ∧ IsPoll p ∧ LockTrace l ∧
    t = r ++ (p ++ Ev.wr 0x5f 0x50 :: Ev.wr 0x69 pw0 :: Ev.wr 0x6a pw1 :: Ev.rd 0x6f v :: l)

/-- The accesses of `k` rounds of the write-back loop starting at index `i`. -/
def WordsTrace (contents : List Nat) : Nat → Nat → List Ev → Prop
  | 0, _, t => t = []
  | k + 1, i, t => ∃ w rest,
      WriteWordTrace i (contents.getD i 0) (contents.getD (i + 1) 0) w ∧
      WordsTrace contents k (i + 2) rest ∧ t = w ++ rest

/-- The accesses of a successful `write_eeprom`; `v` is the byte read from
0x6f. -/
def ProgramTrace (contents : List Nat) (v : Nat) (t : List Ev) : Prop :=
  ∃ pw0 pw1 a p ws, AuthTrace pw0 pw1 v a ∧ v &&& 64 ≠ 0 ∧ IsPoll p ∧
    WordsTrace contents 64 0 ws ∧ t = a ++ (p ++ Ev.wr 0x5f 0x53 :: ws)

/-- The register accesses of an outcome (none when the polls ran out). -/
def Res.trace {σ α : Type} : Res σ α → List Ev
  | Res.ret _ _ t => t
  | Res.exit _ _ t => t
  | Res.spin => []

/-- The bytes returned by the reads of register `reg` in a trace, in order. -/
def reads (reg : Nat) : List Ev → List Nat
  | [] => []
  | Ev.rd r v :: t => if r = reg then v :: reads reg t else reads reg t
  | Ev.wr _ _ :: t => reads reg t

/-- The register writes of a trace, in order, as `(register, value)`. -/
def writes : List Ev → List (Nat × Nat)
  | [] => []
  | Ev.rd _ _ :: t => writes t
  | Ev.wr r v :: t => (r, v) :: writes t

/-- The value of the last write to the control register 0x5f, if any. -/
def last_ctl (t : List Ev) : Option Nat :=
  (((writes t).filter (fun w => w.1 = 0x5f)).getLast?).map Prod.snd

/-- The EEPROM data, address and mode registers. -/
def is_eeprom_reg (r : Nat) : Prop := r = 0x5c ∨ r = 0x5d ∨ r = 0x5e ∨ r = 0x5f

/-- Every write to an EEPROM register comes directly after a read of the
control register 0x5f that returned the busy flag (bit 7) clear. -/
def Guarded (t : List Ev) : Prop :=
  ∀ pre r v post, t = pre ++ Ev.wr r v :: post → is_eeprom_reg r →
    ∃ pre0 b, pre = pre0 ++ [Ev.rd 0x5f b] ∧ b &&& 128 = 0

/-- The register writes of the write-back loop for the image `contents`. -/
def word_writes (contents : List Nat) : List (Nat × Nat) :=
  ((List.range 64).map (fun k =>
    [(0x5f, 0x52), (0x5e, 2 * k), (0x5d, contents.getD (2 * k + 1) 0),
     (0x5c, contents.getD (2 * k) 0), (0x5f, 0x00)])).flatten

/-! ## Test devices -/

/-- A bus on which every byte is acknowledged and every read yields the byte
`c`, whatever the register. -/
def constMpsse (c : Nat) : Mpsse Unit where
  Start := fun s => s
  Write := fun s _ => s
  GetAck := fun _ => Ack.ACK
  Read := fun s => (some c, s)
  SendNacks := fun s => s
  Stop := fun s => s

/-- A run on `constMpsse c` as a live device, every file name opening a file
with the bytes `f`. -/
def constEnv (c : Nat) (f : List Nat) : Env Unit where
  mpsse := constMpsse c
  rv_uninit := fun _ => 0
  eeprom_in := none
  fs := fun _ => some f

/-- A 128-byte image: the bytes 0, 1, ..., 127. -/
def sample_image : List Nat := List.range 128

/-- A bus on which no byte is acknowledged. -/
def nackMpsse : Mpsse Unit where
  Start := fun s => s
  Write := fun s _ => s
  GetAck := fun _ => Ack.NACK
  Read := fun s => (some 0x12, s)
  SendNacks := fun s => s
  Stop := fun s => s

/-- A run on `nackMpsse`; the uninitialised `rv` happens to hold 0xAB. -/
def nackEnv : Env Unit where
  mpsse := nackMpsse
  rv_uninit := fun _ => 0xAB
  eeprom_in := none
  fs := fun _ => none

/-- A simulated chip behind the bus (the device is hardware, outside the
program): one that accepts the stored password and stores each written word.
It answers the control register 0x5f with the busy flag (bit 7) for `latency`
polls after each write to an EEPROM register, latches the addressed word into
the data registers when the word-read mode 0x55 is selected, accepts the
password when the bytes written to 0x69, 0x6a equal the word stored at 0x7a
while in mode 0x50 (status 0x40, else 0x80), erases on mode 0x53 and stores
the word in the data registers at the selected address when 0x5c is written
in mode 0x52, the last two only once the password was accepted. -/
structure Chip where
  eeprom : Nat → Nat
  ctl : Nat
  addr : Nat
  data_lo : Nat
  data_hi : Nat
  pw_lo : Nat
  pw_hi : Nat
  unlocked : Bool
  busy : Nat
  latency : Nat

/-- A register write arriving at the chip. -/
def chip_write (c : Chip) (reg v : Nat) : Chip :=
  if reg = 0x5f then
    if v = 0x55 then
      { c with ctl := v, busy := c.latency, data_lo := c.eeprom c.addr,
               data_hi := c.eeprom (c.addr + 1) }
    else if v = 0x53 ∧ c.unlocked = true then
      { c with ctl := v, busy := c.latency, eeprom := fun _ => 0xff }
    else { c with ctl := v, busy := c.latency }
  else if reg = 0x5e then { c with addr := v, busy := c.latency }
  else if reg = 0x5d then { c with data_hi := v, busy := c.latency }
  else if reg = 0x5c then
    if c.ctl = 0x52 ∧ c.unlocked = true then
      { c with data_lo := v, busy := c.latency,
               eeprom := Function.update (Function.update c.eeprom c.addr v)
                 (c.addr + 1) c.data_hi }
    else { c with data_lo := v, busy := c.latency }
  else if reg = 0x69 then { c with pw_lo := v }
  else if reg = 0x6a then { c with pw_hi := v }
  else c

/-- A register read answered by the chip: the byte and the chip afterwards. -/
def chip_read (c : Chip) (reg : Nat) : Nat × Chip :=
  if reg = 0x5f then
    if c.busy = 0 then (0x00, c) else (0x80, { c with busy := c.busy - 1 })
  else if reg = 0x5c then (c.data_lo, c)
  else if reg = 0x5d then (c.data_hi, c)
  else if reg = 0x6f then
    if c.ctl = 0x50 ∧ c.pw_lo % 256 = c.eeprom 0x7a % 256 ∧
        c.pw_hi % 256 = c.eeprom 0x7b % 256 then
      (0x40, { c with unlocked := true })
    else (0x80, { c with unlocked := false })
  else (0x00, c)

/-- The bus with the chip on it: the bytes written since the last start
condition, the register pointer and the number of bytes read since the last
start condition. -/
structure Bus where
  chip : Chip
  sent : List Nat
  ptr : Nat
  nread : Nat

/-- The bus library talking to the simulated chip at address 0x60.  After a start, the first byte written addresses the chip for writing
(0x60) or reading (0x61); when writing, the second byte sets the register
pointer and each further byte is written to that register; the first byte
read after addressing for reading is the register at the pointer, later ones
are dummies. -/
def mockMpsse : Mpsse Bus where
  Start := fun b => { b with sent := [], nread := 0 }
  Write := fun b x =>
    match b.sent with
    | [] => { b with sent := [x] }
    | [a] => if a = 0x60 then { b with sent := [a, x], ptr := x } else { b with sent := [a, x] }
    | a :: r :: rest =>
      if a = 0x60 then
        { b with sent := a :: r :: rest ++ [x], chip := chip_write b.chip b.ptr x }
      else { b with sent := a :: r :: rest ++ [x] }
  GetAck := fun b =>
    match b.sent with
    | [] => Ack.NACK
    | a :: _ => if a = 0x60 ∨ a = 0x61 then Ack.ACK else Ack.NACK
  Read := fun b =>
    if b.sent = [0x61] ∧ b.nread = 0 then
      (some (chip_read b.chip b.ptr).1, { b with chip := (chip_read b.chip b.ptr).2, nread := 1 })
    else (some 0xff, { b with nread := b.nread + 1 })
  SendNacks := fun b => b
  Stop := fun b => { b with sent := [], nread := 0 }

/-- A run on the chip as a live device, every file name opening a file with
the bytes `f`. -/
def mockEnv (f : List Nat) : Env Bus where
  mpsse := mockMpsse
  rv_uninit := fun _ => 0
  eeprom_in := none
  fs := fun _ => some f

/-- The bus at rest with the chip in state `c`, the pointer at `reg`. -/
def Bus.rest (c : Chip) (reg : Nat) : Bus := { chip := c, sent := [], ptr := reg, nread := 0 }

/-- The accesses of a poll loop that meets `k` busy answers. -/
def busy_polls (k : Nat) : List Ev := List.replicate k (Ev.rd 0x5f 0x80) ++ [Ev.rd 0x5f 0x00]


/-- A chip with an erased EEPROM that is busy for three polls after each
write, on a bus at rest. -/
def fresh_bus : Bus :=
  { chip := { eeprom := fun _ => 0xff, ctl := 0, addr := 0, data_lo := 0, data_hi := 0,
              pw_lo := 0, pw_hi := 0, unlocked := false, busy := 0, latency := 3 },
    sent := [], ptr := 0, nread := 0 }

/-! ## The formulas of the specification -/

/-- The sense resistor value for the stored byte `b`, in 100 µΩ: 25 stands
for a stored zero. -/
def spec_sense (b : Nat) : Nat := if b = 0 then 25 else b

/-- The current in ampere for the bytes `lo`, `hi` of registers 0x54, 0x55 and
the stored sense byte `b`, in exact rational arithmetic. -/
def spec_current (lo hi b : Nat) : ℚ :=
  (((hi * 256 + lo : ℕ) : ℚ) * 7.63 / 1000000) / (((spec_sense b : ℕ) : ℚ) / 10000)

/-! ## Basic facts -/

variable {σ α β : Type}

theorem bind_apply (m : M σ α) (f : α → M σ β) (s : σ) :
    (m >>= f) s = (m s).andThen f := rfl

theorem pure_apply (a : α) (s : σ) : (pure a : M σ α) s = Res.ret a s [] := rfl

theorem fatal_apply (e : Fatal) (s : σ) : (fatal e : M σ α) s = Res.exit e s [] := rfl

theorem read_register_apply (E : Env σ) (reg : Nat) (s : σ) :
    read_register E reg s =
      Res.ret (read_register_xfer E reg s).1 (read_register_xfer E reg s).2
        [Ev.rd reg (read_register_xfer E reg s).1] := rfl

theorem write_register_apply (E : Env σ) (reg data : Nat) (s : σ) :
    write_register E reg data s =
      Res.ret () (write_register_xfer E reg data s) [Ev.wr reg data] := rfl

theorem is_eeprom_busy_apply (E : Env σ) (s : σ) :
    is_eeprom_busy E s =
      Res.ret ((read_register_xfer E 0x5f s).1 &&& (1 <<< 7) != 0)
        (read_register_xfer E 0x5f s).2 [Ev.rd 0x5f (read_register_xfer E 0x5f s).1] := by
  simp [is_eeprom_busy, bind_apply, read_register_apply, Res.andThen, Res.emit, pure_apply]

theorem while_succ (E : Env σ) (n : Nat) (s : σ) :
    while_eeprom_busy E (n + 1) s =
      if (read_register_xfer E 0x5f s).1 &&& 128 = 0 then
        Res.ret () (read_register_xfer E 0x5f s).2 [Ev.rd 0x5f (read_register_xfer E 0x5f s).1]
      else
        (while_eeprom_busy E n (read_register_xfer E 0x5f s).2).emit
          [Ev.rd 0x5f (read_register_xfer E 0x5f s).1] := by
  simp only [while_eeprom_busy, bind_apply, is_eeprom_busy_apply, Res.andThen]
  by_cases h : (read_register_xfer E 0x5f s).1 &&& 128 = 0
  · simp [h, pure_apply, Res.emit]
  · simp [h]

/-- A poll loop never terminates the process: it runs out of polls or returns
after a completed poll sequence. -/
theorem while_cases (E : Env σ) (n : Nat) (s : σ) :
    while_eeprom_busy E n s = Res.spin ∨
      ∃ s1 p, while_eeprom_busy E n s = Res.ret () s1 p ∧ IsPoll p := by
  induction n generalizing s with
  | zero => left; rfl
  | succ n ih =>
    rw [while_succ]
    by_cases h : (read_register_xfer E 0x5f s).1 &&& 128 = 0
    · right
      exact ⟨_, _, if_pos h, [], _, by simp, by simp, h⟩
    · rcases ih (read_register_xfer E 0x5f s).2 with h1 | ⟨s1, p, h1, bs, b, hp, hbs, hb⟩
      · left; simp [h, h1, Res.emit]
      · right
        refine ⟨s1, Ev.rd 0x5f (read_register_xfer E 0x5f s).1 :: p, by simp [h, h1, Res.emit],
          (read_register_xfer E 0x5f s).1 :: bs, b, ?_, ?_, hb⟩
        · simp [hp]
        · intro x hx
          rcases List.mem_cons.mp hx with rfl | hx
          · exact h
          · exact hbs x hx

/-- More polls do not change the result of a poll loop that returned. -/
theorem while_mono (E : Env σ) (n k : Nat) (s s1 : σ) (p : List Ev)
    (h : while_eeprom_busy E n s = Res.ret () s1 p) :
    while_eeprom_busy E (n + k) s = Res.ret () s1 p := by
  induction n generalizing s s1 p with
  | zero => simp [while_eeprom_busy] at h
  | succ n ih =>
    rw [show n + 1 + k = (n + k) + 1 by omega, while_succ]
    rw [while_succ] at h
    by_cases hz : (read_register_xfer E 0x5f s).1 &&& 128 = 0
    · simpa [hz] using h
    · simp only [hz, if_false] at h ⊢
      rcases while_cases E n (read_register_xfer E 0x5f s).2 with h1 | ⟨s2, p2, h1, _⟩
      · simp [h1, Res.emit] at h
      · rw [ih _ _ _ h1]
        rw [h1] at h
        exact h

/-- On a device whose busy flag eventually clears, a poll loop returns for
every sufficiently large poll budget. -/
theorem while_run {E : Env σ} (hb : BusyClears E) (s : σ) :
    ∃ n0 s1 p, IsPoll p ∧ ∀ n, n0 ≤ n → while_eeprom_busy E n s = Res.ret () s1 p := by
  obtain ⟨n0, hn0⟩ := hb s
  rcases while_cases E n0 s with h | ⟨s1, p, h, hp⟩
  · exact absurd h hn0
  · refine ⟨n0, s1, p, hp, fun n hn => ?_⟩
    obtain ⟨k, rfl⟩ := Nat.exists_eq_add_of_le hn
    exact while_mono E n0 k s s1 p h

/-! ## Runs of the EEPROM operations on a device whose busy flag clears -/

theorem eeprom_lock_run {E : Env σ} (hb : BusyClears E) (s : σ) :
    ∃ n0 s1 t, LockTrace t ∧ ∀ n, n0 ≤ n → eeprom_lock E n s = Res.ret () s1 t := by
  obtain ⟨n1, s1, p1, hp1, h1⟩ := while_run hb s
  refine ⟨n1, write_register_xfer E 0x5f 0 s1, _, ⟨p1, hp1, rfl⟩, fun n hn => ?_⟩
  simp only [eeprom_lock, bind_apply, h1 n hn, Res.andThen, Res.emit, write_register_apply]

theorem read_eeprom_word_run {E : Env σ} (hb : BusyClears E) (hlive : E.eeprom_in = none)
    (a : Nat) (s : σ) :
    ∃ n0 s1 b0 b1 t, ReadWordTrace a b0 b1 t ∧
      ∀ n, n0 ≤ n → read_eeprom_word E n a s = Res.ret (b0, b1) s1 t := by
  obtain ⟨n1, s1, p1, hp1, h1⟩ := while_run hb s
  obtain ⟨n2, s2, p2, hp2, h2⟩ := while_run hb (write_register_xfer E 0x5e a s1)
  obtain ⟨n3, s3, p3, hp3, h3⟩ := while_run hb (write_register_xfer E 0x5f 0x55 s2)
  obtain ⟨n4, s4, p4, hp4, h4⟩ := while_run hb (read_register_xfer E 0x5d s3).2
  obtain ⟨n5, s5, l, hl, h5⟩ := eeprom_lock_run hb (read_register_xfer E 0x5c s4).2
  refine ⟨n1 + n2 + n3 + n4 + n5, s5, (read_register_xfer E 0x5c s4).1,
    (read_register_xfer E 0x5d s3).1, _, ⟨p1, p2, p3, p4, l, hp1, hp2, hp3, hp4, hl, rfl⟩,
    fun n hn => ?_⟩
  simp only [read_eeprom_word, hlive, bind_apply, pure_apply, Res.andThen, Res.emit,
    write_register_apply, read_register_apply, h1 n (by omega), h2 n (by omega),
    h3 n (by omega), h4 n (by omega), h5 n (by omega), List.append_nil, List.append_assoc,
    List.singleton_append, List.cons_append, List.nil_append]

theorem write_eeprom_word_run {E : Env σ} (hb : BusyClears E) (a : Nat) (buf : Nat × Nat)
    (s : σ) :
    ∃ n0 s1 t, WriteWordTrace a buf.1 buf.2 t ∧
      ∀ n, n0 ≤ n → write_eeprom_word E n a buf s = Res.ret () s1 t := by
  obtain ⟨n1, s1, p1, hp1, h1⟩ := while_run hb s
  obtain ⟨n2, s2, p2, hp2, h2⟩ := while_run hb (write_register_xfer E 0x5f 0x52 s1)
  obtain ⟨n3, s3, p3, hp3, h3⟩ := while_run hb (write_register_xfer E 0x5e a s2)
  obtain ⟨n4, s4, p4, hp4, h4⟩ := while_run hb (write_register_xfer E 0x5d buf.2 s3)
  obtain ⟨n5, s5, l, hl, h5⟩ := eeprom_lock_run hb (write_register_xfer E 0x5c buf.1 s4)
  refine ⟨n1 + n2 + n3 + n4 + n5, s5, _, ⟨p1, p2, p3, p4, l, hp1, hp2, hp3, hp4, hl, rfl⟩,
    fun n hn => ?_⟩
  simp only [write_eeprom_word, bind_apply, Res.andThen, Res.emit,
    write_register_apply, h1 n (by omega), h2 n (by omega),
    h3 n (by omega), h4 n (by omega), h5 n (by omega), List.append_nil, List.append_assoc,
    List.singleton_append, List.cons_append, List.nil_append]

theorem write_eeprom_loop_run {E : Env σ} (hb : BusyClears E) (contents : List Nat)
    (k i : Nat) (hi : i + 2 * k = 128) (s : σ) :
    ∃ n0 s1 t, WordsTrace contents k i t ∧
      ∀ n, n0 ≤ n → write_eeprom_loop E n contents i s = Res.ret () s1 t := by
  induction k generalizing i s with
  | zero =>
    refine ⟨0, s, [], rfl, fun n _ => ?_⟩
    rw [write_eeprom_loop]
    simp [eeprom_size, show ¬ i < 128 by omega, pure_apply]
  | succ k ih =>
    obtain ⟨n1, s1, w, hw, h1⟩ :=
      write_eeprom_word_run hb i (contents.getD i 0, contents.getD (i + 1) 0) s
    obtain ⟨n2, s2, rest, hrest, h2⟩ := ih (i + 2) (by omega) s1
    refine ⟨n1 + n2, s2, w ++ rest, ⟨w, rest, hw, hrest, rfl⟩, fun n hn => ?_⟩
    rw [write_eeprom_loop]
    simp only [eeprom_size, show i < 128 by omega, if_true, bind_apply,
      show i % 256 = i by omega, h1 n (by omega), h2 n (by omega), Res.andThen, Res.emit]

/-- Runs of `write_eeprom` on a live device whose busy flag clears, given a
128-byte image file: with enough polls allowed it ends either with the
authentication failure, right after the password handshake, or with a normal
return after the full programming sequence, as bit 6 of the byte read from
0x6f decides. -/
theorem write_eeprom_run {E : Env σ} (hb : BusyClears E) (hlive : E.eeprom_in = none)
    (filename : String) (img : List Nat) (hfile : E.fs filename = some img)
    (hlen : img.length = 128) (s : σ) :
    ∃ n0 s1 t,
      (∃ pw0 pw1 sk, (read_register_xfer E 0x6f sk).1 &&& 64 = 0 ∧
          AuthTrace pw0 pw1 (read_register_xfer E 0x6f sk).1 t ∧
          ∀ n, n0 ≤ n → write_eeprom E n filename s = Res.exit Fatal.auth_failed s1 t) ∨
      (∃ sk, (read_register_xfer E 0x6f sk).1 &&& 64 ≠ 0 ∧
          ProgramTrace img (read_register_xfer E 0x6f sk).1 t ∧
          ∀ n, n0 ≤ n → write_eeprom E n filename s = Res.ret () s1 t) := by
  obtain ⟨n1, s1, pw0, pw1, r, hr, h1⟩ := read_eeprom_word_run hb hlive 0x7a s
  obtain ⟨n2, s2, p, hp, h2⟩ := while_run hb s1
  obtain ⟨n3, s3, l, hl, h3⟩ := eeprom_lock_run hb
    (read_register_xfer E 0x6f (write_register_xfer E 0x6a pw1
      (write_register_xfer E 0x69 pw0 (write_register_xfer E 0x5f 0x50 s2)))).2
  have htake : List.take 128 img = img := List.take_of_length_le (by omega)
  by_cases hv : (read_register_xfer E 0x6f (write_register_xfer E 0x6a pw1
      (write_register_xfer E 0x69 pw0 (write_register_xfer E 0x5f 0x50 s2)))).1 &&& 64 = 0
  · refine ⟨n1 + n2 + n3, s3, _, Or.inl ⟨pw0, pw1, _, hv, ⟨r, p, l, hr, hp, hl, rfl⟩,
      fun n hn => ?_⟩⟩
    simp only [write_eeprom, hfile, hlen, eeprom_size, htake, ne_eq, not_true_eq_false,
      lt_self_iff_false, if_false, bind_apply, Res.andThen, Res.emit,
      write_register_apply, read_register_apply, h1 n (by omega), h2 n (by omega),
      h3 n (by omega), List.append_nil, List.append_assoc,
      List.singleton_append, List.cons_append, List.nil_append]
    simp [hv, fatal_apply, Res.emit]
  · obtain ⟨n4, s4, q, hq, h4⟩ := while_run hb s3
    obtain ⟨n5, s5, ws, hws, h5⟩ :=
      write_eeprom_loop_run hb img 64 0 (by omega) (write_register_xfer E 0x5f 0x53 s4)
    refine ⟨n1 + n2 + n3 + n4 + n5, s5, _, Or.inr ⟨_, hv,
      ⟨pw0, pw1, _, q, ws, ⟨r, p, l, hr, hp, hl, rfl⟩, hv, hq, hws, rfl⟩, fun n hn => ?_⟩⟩
    simp only [write_eeprom, hfile, hlen, eeprom_size, htake, ne_eq, not_true_eq_false,
      lt_self_iff_false, if_false, bind_apply, Res.andThen, Res.emit,
      write_register_apply, read_register_apply, h1 n (by omega), h2 n (by omega),
      h3 n (by omega), List.append_nil,
      List.append_assoc, List.singleton_append, List.cons_append, List.nil_append]
    simp [hv, bind_apply, Res.andThen, Res.emit, write_register_apply, h4 n (by omega),
      h5 n (by omega)]

/-! ## Register writes of the traces -/

theorem writes_append (t1 t2 : List Ev) : writes (t1 ++ t2) = writes t1 ++ writes t2 := by
  induction t1 with
  | nil => rfl
  | cons e t ih => cases e <;> simp [writes, ih]

theorem mem_writes (r v : Nat) (t : List Ev) : (r, v) ∈ writes t ↔ Ev.wr r v ∈ t := by
  induction t with
  | nil => simp [writes]
  | cons e t ih => cases e <;> simp [writes, ih]

theorem writes_poll {p : List Ev} (hp : IsPoll p) : writes p = [] := by
  obtain ⟨bs, b, rfl, -, -⟩ := hp
  induction bs with
  | nil => rfl
  | cons x bs ih => simpa [writes] using ih

theorem writes_lock {t : List Ev} (h : LockTrace t) : writes t = [(0x5f, 0)] := by
  obtain ⟨p, hp, rfl⟩ := h
  simp [writes_append, writes_poll hp, writes]

theorem writes_read_word {a b0 b1 : Nat} {t : List Ev} (h : ReadWordTrace a b0 b1 t) :
    writes t = [(0x5e, a), (0x5f, 0x55), (0x5f, 0)] := by
  obtain ⟨p1, p2, p3, p4, l, h1, h2, h3, h4, hl, rfl⟩ := h
  simp [writes_append, writes_poll h1, writes_poll h2, writes_poll h3, writes_poll h4,
    writes_lock hl, writes]

theorem writes_write_word {a b0 b1 : Nat} {t : List Ev} (h : WriteWordTrace a b0 b1 t) :
    writes t = [(0x5f, 0x52), (0x5e, a), (0x5d, b1), (0x5c, b0), (0x5f, 0)] := by
  obtain ⟨p1, p2, p3, p4, l, h1, h2, h3, h4, hl, rfl⟩ := h
  simp [writes_append, writes_poll h1, writes_poll h2, writes_poll h3, writes_poll h4,
    writes_lock hl, writes]

theorem writes_auth {pw0 pw1 v : Nat} {t : List Ev} (h : AuthTrace pw0 pw1 v t) :
    writes t = [(0x5e, 0x7a), (0x5f, 0x55), (0x5f, 0), (0x5f, 0x50), (0x69, pw0), (0x6a, pw1),
      (0x5f, 0)] := by
  obtain ⟨r, p, l, hr, hp, hl, rfl⟩ := h
  simp [writes_append, writes_read_word hr, writes_poll hp, writes_lock hl, writes]

theorem writes_words (contents : List Nat) (k i : Nat) (t : List Ev)
    (h : WordsTrace contents k i t) :
    writes t = ((List.range k).map (fun j =>
      [(0x5f, 0x52), (0x5e, i + 2 * j), (0x5d, contents.getD (i + 2 * j + 1) 0),
       (0x5c, contents.getD (i + 2 * j) 0), (0x5f, 0x00)])).flatten := by
  induction k generalizing i t with
  | zero =>
    simp only [WordsTrace] at h
    subst h
    rfl
  | succ k ih =>
    obtain ⟨w, rest, hw, hrest, rfl⟩ := h
    rw [writes_append, writes_write_word hw, ih _ _ hrest, List.range_succ_eq_map]
    simp only [List.map_cons, List.flatten_cons, List.map_map, Nat.mul_zero, Nat.add_zero]
    congr 2
    apply List.map_congr_left
    intro j _
    simp only [Function.comp, Nat.succ_eq_add_one]
    rw [show i + 2 + 2 * j = i + 2 * (j + 1) by omega]

theorem writes_program {contents : List Nat} {v : Nat} {t : List Ev}
    (h : ProgramTrace contents v t) :
    ∃ pw0 pw1, writes t =
      [(0x5e, 0x7a), (0x5f, 0x55), (0x5f, 0), (0x5f, 0x50), (0x69, pw0), (0x6a, pw1),
        (0x5f, 0), (0x5f, 0x53)] ++ word_writes contents := by
  obtain ⟨pw0, pw1, a, p, ws, ha, -, hp, hws, rfl⟩ := h
  refine ⟨pw0, pw1, ?_⟩
  simp only [writes_append, writes_auth ha, writes_poll hp, writes, writes_words _ _ _ _ hws,
    word_writes, Nat.zero_add]
  simp

/-! ## Writes to EEPROM registers follow a poll that found the busy flag clear -/

theorem guarded_nil : Guarded [] := by
  intro pre r v post h
  simp at h

theorem guarded_cons_rd (r v : Nat) {t : List Ev} (h : Guarded t) : Guarded (Ev.rd r v :: t) := by
  intro pre r1 v1 post heq hreg
  cases pre with
  | nil => simp at heq
  | cons e pre =>
    simp only [List.cons_append, List.cons.injEq] at heq
    obtain ⟨pre0, b, hpre, hb⟩ := h pre r1 v1 post heq.2 hreg
    exact ⟨e :: pre0, b, by simp [hpre], hb⟩

theorem guarded_cons_wr (r v : Nat) (hr : ¬ is_eeprom_reg r) {t : List Ev} (h : Guarded t) :
    Guarded (Ev.wr r v :: t) := by
  intro pre r1 v1 post heq hreg
  cases pre with
  | nil =>
    simp only [List.nil_append, List.cons.injEq, Ev.wr.injEq] at heq
    exact absurd (heq.1.1 ▸ hreg) hr
  | cons e pre =>
    simp only [List.cons_append, List.cons.injEq] at heq
    obtain ⟨pre0, b, hpre, hb⟩ := h pre r1 v1 post heq.2 hreg
    exact ⟨e :: pre0, b, by simp [hpre], hb⟩

theorem guarded_idle_wr (b r v : Nat) (hb : b &&& 128 = 0) {t : List Ev} (h : Guarded t) :
    Guarded (Ev.rd 0x5f b :: Ev.wr r v :: t) := by
  intro pre r1 v1 post heq hreg
  cases pre with
  | nil => simp at heq
  | cons e pre =>
    simp only [List.cons_append, List.cons.injEq] at heq
    obtain ⟨he, heq⟩ := heq
    cases pre with
    | nil => exact ⟨[], b, by simp [he], hb⟩
    | cons e1 pre =>
      simp only [List.cons_append, List.cons.injEq] at heq
      obtain ⟨pre0, b1, hpre, hb1⟩ := h pre r1 v1 post heq.2 hreg
      exact ⟨e :: e1 :: pre0, b1, by simp [hpre], hb1⟩

theorem guarded_append {t1 t2 : List Ev} (h1 : Guarded t1) (h2 : Guarded t2) :
    Guarded (t1 ++ t2) := by
  intro pre r v post heq hreg
  rcases List.append_eq_append_iff.mp heq with ⟨a, hpre, ht2⟩ | ⟨c, ht1, hc⟩
  · obtain ⟨pre0, b, ha, hb⟩ := h2 a r v post ht2 hreg
    exact ⟨t1 ++ pre0, b, by simp [hpre, ha], hb⟩
  · cases c with
    | nil =>
      simp only [List.nil_append] at hc
      obtain ⟨pre0, b, ha, hb⟩ := h2 [] r v post (by simp [hc]) hreg
      simp at ha
    | cons e c =>
      simp only [List.cons_append, List.cons.injEq] at hc
      exact h1 pre r v c (by rw [ht1, hc.1]) hreg

theorem guarded_poll_wr {p : List Ev} (hp : IsPoll p) (r v : Nat) {t : List Ev}
    (h : Guarded t) : Guarded (p ++ Ev.wr r v :: t) := by
  obtain ⟨bs, b, rfl, -, hb⟩ := hp
  induction bs with
  | nil => exact guarded_idle_wr b r v hb h
  | cons x bs ih => exact guarded_cons_rd _ _ ih

theorem guarded_poll {p : List Ev} (hp : IsPoll p) : Guarded p := by
  obtain ⟨bs, b, rfl, -, hb⟩ := hp
  induction bs with
  | nil => exact guarded_cons_rd _ _ guarded_nil
  | cons x bs ih => exact guarded_cons_rd _ _ ih

theorem guarded_lock {t : List Ev} (h : LockTrace t) : Guarded t := by
  obtain ⟨p, hp, rfl⟩ := h
  exact guarded_poll_wr hp _ _ guarded_nil

theorem guarded_read_word {a b0 b1 : Nat} {t : List Ev} (h : ReadWordTrace a b0 b1 t) :
    Guarded t := by
  obtain ⟨p1, p2, p3, p4, l, h1, h2, h3, h4, hl, rfl⟩ := h
  exact guarded_poll_wr h1 _ _ (guarded_poll_wr h2 _ _
    (guarded_append (guarded_poll h3) (guarded_cons_rd _ _
      (guarded_append (guarded_poll h4) (guarded_cons_rd _ _ (guarded_lock hl))))))

theorem guarded_write_word {a b0 b1 : Nat} {t : List Ev} (h : WriteWordTrace a b0 b1 t) :
    Guarded t := by
  obtain ⟨p1, p2, p3, p4, l, h1, h2, h3, h4, hl, rfl⟩ := h
  exact guarded_poll_wr h1 _ _ (guarded_poll_wr h2 _ _
    (guarded_poll_wr h3 _ _ (guarded_poll_wr h4 _ _ (guarded_lock hl))))

theorem guarded_auth {pw0 pw1 v : Nat} {t : List Ev} (h : AuthTrace pw0 pw1 v t) :
    Guarded t := by
  obtain ⟨r, p, l, hr, hp, hl, rfl⟩ := h
  refine guarded_append (guarded_read_word hr) (guarded_poll_wr hp _ _
    (guarded_cons_wr _ _ ?_ (guarded_cons_wr _ _ ?_ (guarded_cons_rd _ _ (guarded_lock hl)))))
  · simp [is_eeprom_reg]
  · simp [is_eeprom_reg]

theorem guarded_words (contents : List Nat) (k i : Nat) (t : List Ev)
    (h : WordsTrace contents k i t) : Guarded t := by
  induction k generalizing i t with
  | zero =>
    simp only [WordsTrace] at h
    subst h
    exact guarded_nil
  | succ k ih =>
    obtain ⟨w, rest, hw, hrest, rfl⟩ := h
    exact guarded_append (guarded_write_word hw) (ih _ _ hrest)

theorem guarded_program {contents : List Nat} {v : Nat} {t : List Ev}
    (h : ProgramTrace contents v t) :
    Guarded t := by
  obtain ⟨pw0, pw1, a, p, ws, ha, -, hp, hws, rfl⟩ := h
  exact guarded_append (guarded_auth ha) (guarded_poll_wr hp _ _ (guarded_words _ _ _ _ hws))

/-! ## The last write to the control register -/

theorem last_ctl_of_writes {t : List Ev} {w : List (Nat × Nat)}
    (h : writes t = w ++ [(0x5f, 0)]) : last_ctl t = some 0 := by
  simp [last_ctl, h, List.filter_append]

theorem writes_words_end (contents : List Nat) (k i : Nat) (t : List Ev)
    (h : WordsTrace contents (k + 1) i t) : ∃ w, writes t = w ++ [(0x5f, 0)] := by
  induction k generalizing i t with
  | zero =>
    obtain ⟨w, rest, hw, hrest, rfl⟩ := h
    simp only [WordsTrace] at hrest
    subst hrest
    exact ⟨[(0x5f, 0x52), (0x5e, i), (0x5d, contents.getD (i + 1) 0),
      (0x5c, contents.getD i 0)], by simp [writes_write_word hw]⟩
  | succ k ih =>
    obtain ⟨w, rest, hw, hrest, rfl⟩ := h
    obtain ⟨w1, hw1⟩ := ih _ _ hrest
    exact ⟨writes w ++ w1, by simp [writes_append, hw1]⟩

theorem last_ctl_lock {t : List Ev} (h : LockTrace t) : last_ctl t = some 0 :=
  last_ctl_of_writes (w := []) (by simp [writes_lock h])

theorem last_ctl_read_word {a b0 b1 : Nat} {t : List Ev} (h : ReadWordTrace a b0 b1 t) :
    last_ctl t = some 0 :=
  last_ctl_of_writes (w := [(0x5e, a), (0x5f, 0x55)]) (by simp [writes_read_word h])

theorem last_ctl_write_word {a b0 b1 : Nat} {t : List Ev} (h : WriteWordTrace a b0 b1 t) :
    last_ctl t = some 0 :=
  last_ctl_of_writes (w := [(0x5f, 0x52), (0x5e, a), (0x5d, b1), (0x5c, b0)])
    (by simp [writes_write_word h])

theorem last_ctl_auth {pw0 pw1 v : Nat} {t : List Ev} (h : AuthTrace pw0 pw1 v t) :
    last_ctl t = some 0 :=
  last_ctl_of_writes
    (w := [(0x5e, 0x7a), (0x5f, 0x55), (0x5f, 0), (0x5f, 0x50), (0x69, pw0), (0x6a, pw1)])
    (by simp [writes_auth h])

theorem last_ctl_program {contents : List Nat} {v : Nat} {t : List Ev}
    (h : ProgramTrace contents v t) :
    last_ctl t = some 0 := by
  obtain ⟨pw0, pw1, a, p, ws, ha, -, hp, hws, rfl⟩ := h
  obtain ⟨w, hw⟩ := writes_words_end contents 63 0 ws hws
  exact last_ctl_of_writes (w := writes a ++ (0x5f, 0x53) :: w)
    (by simp [writes_append, writes_poll hp, writes, hw])

/-! ## The test devices -/

theorem constEnv_read (c : Nat) (f : List Nat) (reg : Nat) (s : Unit) :
    read_register_xfer (constEnv c f) reg s = (c % 256, ()) := by
  simp [read_register_xfer, constEnv, constMpsse]

theorem constEnv_busy_clears (c : Nat) (f : List Nat) (hc : c % 256 &&& 128 = 0) :
    BusyClears (constEnv c f) := by
  intro s
  refine ⟨1, ?_⟩
  rw [while_succ]
  simp [constEnv_read, hc]

/-! ## Authenticated programming -/

theorem reads_append (reg : Nat) (t1 t2 : List Ev) :
    reads reg (t1 ++ t2) = reads reg t1 ++ reads reg t2 := by
  induction t1 with
  | nil => rfl
  | cons e t ih =>
    cases e with
    | rd r v => by_cases h : r = reg <;> simp [reads, h, ih]
    | wr r v => simp [reads, ih]

theorem reads_status_poll {p : List Ev} (hp : IsPoll p) : reads 0x6f p = [] := by
  obtain ⟨bs, b, rfl, -, -⟩ := hp
  induction bs with
  | nil => simp [reads]
  | cons x bs ih => simpa [reads] using ih

theorem reads_status_lock {t : List Ev} (h : LockTrace t) : reads 0x6f t = [] := by
  obtain ⟨p, hp, rfl⟩ := h
  simp [reads_append, reads_status_poll hp, reads]

theorem reads_status_read_word {a b0 b1 : Nat} {t : List Ev} (h : ReadWordTrace a b0 b1 t) :
    reads 0x6f t = [] := by
  obtain ⟨p1, p2, p3, p4, l, h1, h2, h3, h4, hl, rfl⟩ := h
  simp [reads_append, reads_status_poll h1, reads_status_poll h2, reads_status_poll h3,
    reads_status_poll h4, reads_status_lock hl, reads]

theorem reads_status_write_word {a b0 b1 : Nat} {t : List Ev} (h : WriteWordTrace a b0 b1 t) :
    reads 0x6f t = [] := by
  obtain ⟨p1, p2, p3, p4, l, h1, h2, h3, h4, hl, rfl⟩ := h
  simp [reads_append, reads_status_poll h1, reads_status_poll h2, reads_status_poll h3,
    reads_status_poll h4, reads_status_lock hl, reads]

theorem reads_status_auth {pw0 pw1 v : Nat} {t : List Ev} (h : AuthTrace pw0 pw1 v t) :
    reads 0x6f t = [v] := by
  obtain ⟨r, p, l, hr, hp, hl, rfl⟩ := h
  simp [reads_append, reads_status_read_word hr, reads_status_poll hp, reads_status_lock hl,
    reads]

theorem reads_status_words (contents : List Nat) (k i : Nat) (t : List Ev)
    (h : WordsTrace contents k i t) : reads 0x6f t = [] := by
  induction k generalizing i t with
  | zero =>
    simp only [WordsTrace] at h
    subst h
    rfl
  | succ k ih =>
    obtain ⟨w, rest, hw, hrest, rfl⟩ := h
    rw [reads_append, reads_status_write_word hw, ih _ _ hrest]
    rfl

theorem reads_status_program {contents : List Nat} {v : Nat} {t : List Ev}
    (h : ProgramTrace contents v t) : reads 0x6f t = [v] := by
  obtain ⟨pw0, pw1, a, p, ws, ha, -, hp, hws, rfl⟩ := h
  simp [reads_append, reads_status_auth ha, reads_status_poll hp,
    reads_status_words _ _ _ _ hws, reads]

theorem count_erase_word_writes (contents : List Nat) :
    (word_writes contents).count (0x5f, 0x53) = 0 := by
  rw [List.count_eq_zero]
  intro h
  simp [word_writes, List.mem_flatten] at h

/-- C1: on a live device whose busy polls eventually clear, given a 128-byte
image file, `write_eeprom` has one outcome `r` for every sufficiently large
poll budget, and it reads the authentication status register 0x6f exactly
once, getting a byte `v` (the result of a `read_register` of 0x6f).  If `v`
has bit 6 (ok) clear, the outcome is the authentication failure, and the
register accesses performed contain no write of the erase mode 0x53 or of the
word-write mode 0x52 to 0x5f and no write to the data registers 0x5c and
0x5d. -/
theorem write_eeprom_auth_failure (E : Env σ) (filename : String) (img : List Nat)
    (hlive : E.eeprom_in = none) (hfile : E.fs filename = some img) (hlen : img.length = 128)
    (hb : BusyClears E) (s : σ) :
    ∃ n0 r v,
      (∀ n, n0 ≤ n → write_eeprom E n filename s = r) ∧
      reads 0x6f r.trace = [v] ∧ (∃ sk, v = (read_register_xfer E 0x6f sk).1) ∧
      (v &&& 0x40 = 0 →
        (∃ s1, r = Res.exit Fatal.auth_failed s1 r.trace) ∧
        Ev.wr 0x5f 0x53 ∉ r.trace ∧ Ev.wr 0x5f 0x52 ∉ r.trace ∧
        (∀ x, Ev.wr 0x5c x ∉ r.trace) ∧ (∀ x, Ev.wr 0x5d x ∉ r.trace)) := by
  obtain ⟨n0, s1, t, h | h⟩ := write_eeprom_run hb hlive filename img hfile hlen s
  · obtain ⟨pw0, pw1, sk, -, ha, hrun⟩ := h
    have hw := writes_auth ha
    refine ⟨n0, Res.exit Fatal.auth_failed s1 t, _, hrun, reads_status_auth ha, ⟨sk, rfl⟩,
      fun _ => ⟨⟨s1, rfl⟩, ?_, ?_, ?_, ?_⟩⟩
    · simp only [Res.trace]; rw [← mem_writes, hw]; simp
    · simp only [Res.trace]; rw [← mem_writes, hw]; simp
    · intro x; simp only [Res.trace]; rw [← mem_writes, hw]; simp
    · intro x; simp only [Res.trace]; rw [← mem_writes, hw]; simp
  · obtain ⟨sk, hv, hp, hrun⟩ := h
    exact ⟨n0, Res.ret () s1 t, _, hrun, reads_status_program hp, ⟨sk, rfl⟩,
      fun h0 => absurd h0 hv⟩

theorem write_eeprom_auth_failure_witness :
    ∃ n0 s1 t,
      (∀ n, n0 ≤ n →
        write_eeprom (constEnv 0 sample_image) n "image.bin" () =
          Res.exit Fatal.auth_failed s1 t) ∧
      reads 0x6f t = [0] ∧
      Ev.wr 0x5f 0x53 ∉ t ∧ Ev.wr 0x5f 0x52 ∉ t ∧
      (∀ x, Ev.wr 0x5c x ∉ t) ∧ (∀ x, Ev.wr 0x5d x ∉ t) := by
  obtain ⟨n0, r, v, hrun, hreads, ⟨sk, hv⟩, himp⟩ :=
    write_eeprom_auth_failure (constEnv 0 sample_image) "image.bin" sample_image rfl rfl
      (List.length_range 128) (constEnv_busy_clears 0 sample_image (by decide)) ()
  rw [constEnv_read] at hv
  subst hv
  obtain ⟨⟨s1, hr⟩, h1, h2, h3, h4⟩ := himp (by decide)
  exact ⟨n0, s1, r.trace, fun n hn => (hrun n hn).trans hr, hreads, h1, h2, h3, h4⟩

/-- C2: on a live device whose busy polls eventually clear, given a 128-byte
image file, `write_eeprom` has one outcome `r` for every sufficiently large
poll budget, and it reads the authentication status register 0x6f exactly
once, getting a byte `v` (the result of a `read_register` of 0x6f).  If `v`
has bit 6 (ok) set, `write_eeprom` returns, and its register writes are, in
order: those of the password handshake, one write of the erase mode 0x53 to
0x5f, and then for each address 0, 2, ..., 126 in ascending order the writes
of one `write_eeprom_word` call: 0x52 to 0x5f, the address to 0x5e,
`image[address + 1]` to 0x5d, `image[address]` to 0x5c and 0x00 to 0x5f.  The
erase mode is written exactly once. -/
theorem write_eeprom_programs_image (E : Env σ) (filename : String) (img : List Nat)
    (hlive : E.eeprom_in = none) (hfile : E.fs filename = some img) (hlen : img.length = 128)
    (hb : BusyClears E) (s : σ) :
    ∃ n0 r v,
      (∀ n, n0 ≤ n → write_eeprom E n filename s = r) ∧
      reads 0x6f r.trace = [v] ∧ (∃ sk, v = (read_register_xfer E 0x6f sk).1) ∧
      (v &&& 0x40 ≠ 0 →
        (∃ s1, r = Res.ret () s1 r.trace) ∧
        (∃ pw0 pw1, writes r.trace =
          [(0x5e, 0x7a), (0x5f, 0x55), (0x5f, 0), (0x5f, 0x50), (0x69, pw0), (0x6a, pw1),
            (0x5f, 0), (0x5f, 0x53)] ++
          ((List.range 64).map (fun k =>
            [(0x5f, 0x52), (0x5e, 2 * k), (0x5d, img.getD (2 * k + 1) 0),
             (0x5c, img.getD (2 * k) 0), (0x5f, 0x00)])).flatten) ∧
        (writes r.trace).count (0x5f, 0x53) = 1) := by
  obtain ⟨n0, s1, t, h | h⟩ := write_eeprom_run hb hlive filename img hfile hlen s
  · obtain ⟨pw0, pw1, sk, hv, ha, hrun⟩ := h
    exact ⟨n0, Res.exit Fatal.auth_failed s1 t, _, hrun, reads_status_auth ha, ⟨sk, rfl⟩,
      fun h0 => absurd hv h0⟩
  · obtain ⟨sk, -, hp, hrun⟩ := h
    obtain ⟨pw0, pw1, hw⟩ := writes_program hp
    refine ⟨n0, Res.ret () s1 t, _, hrun, reads_status_program hp, ⟨sk, rfl⟩,
      fun _ => ⟨⟨s1, rfl⟩, ⟨pw0, pw1, hw⟩, ?_⟩⟩
    simp only [Res.trace]
    rw [hw, List.count_append, count_erase_word_writes]
    simp [List.count_cons]

theorem write_eeprom_programs_image_witness :
    ∃ n0 s1 t,
      (∀ n, n0 ≤ n →
        write_eeprom (constEnv 0x40 sample_image) n "image.bin" () = Res.ret () s1 t) ∧
      reads 0x6f t = [0x40] ∧
      (∃ pw0 pw1, writes t =
        [(0x5e, 0x7a), (0x5f, 0x55), (0x5f, 0), (0x5f, 0x50), (0x69, pw0), (0x6a, pw1),
          (0x5f, 0), (0x5f, 0x53)] ++
        ((List.range 64).map (fun k =>
          [(0x5f, 0x52), (0x5e, 2 * k), (0x5d, sample_image.getD (2 * k + 1) 0),
           (0x5c, sample_image.getD (2 * k) 0), (0x5f, 0x00)])).flatten) ∧
      (writes t).count (0x5f, 0x53) = 1 := by
  obtain ⟨n0, r, v, hrun, hreads, ⟨sk, hv⟩, himp⟩ :=
    write_eeprom_programs_image (constEnv 0x40 sample_image) "image.bin" sample_image rfl rfl
      (List.length_range 128) (constEnv_busy_clears 0x40 sample_image (by decide)) ()
  rw [constEnv_read] at hv
  subst hv
  obtain ⟨⟨s1, hr⟩, hw, hc⟩ := himp (by decide)
  exact ⟨n0, s1, r.trace, fun n hn => (hrun n hn).trans hr, hreads, hw, hc⟩

/-! ## Locking -/

/-- C3: on a live device whose busy flag eventually clears, `read_eeprom_word`,
`write_eeprom_word` and `write_eeprom` (with a 128-byte image file; on the
authentication failure path, taken when bit 6 of the byte read from 0x6f is
clear, and on the success path) each end, for every sufficiently large poll
budget, with the EEPROM locked: the last write to the control register 0x5f
among the accesses of the operation has the value 0x00. -/
theorem eeprom_operations_end_locked (E : Env σ) (filename : String) (img : List Nat)
    (hlive : E.eeprom_in = none) (hfile : E.fs filename = some img) (hlen : img.length = 128)
    (hb : BusyClears E) (a : Nat) (buf : Nat × Nat) (s : σ) :
    (∃ n0 s1 b t, (∀ n, n0 ≤ n → read_eeprom_word E n a s = Res.ret b s1 t) ∧
      last_ctl t = some 0x00) ∧
    (∃ n0 s1 t, (∀ n, n0 ≤ n → write_eeprom_word E n a buf s = Res.ret () s1 t) ∧
      last_ctl t = some 0x00) ∧
    (∃ n0 s1 t,
      ((∃ sk, (read_register_xfer E 0x6f sk).1 &&& 0x40 = 0 ∧
          ∀ n, n0 ≤ n → write_eeprom E n filename s = Res.exit Fatal.auth_failed s1 t) ∨
       (∃ sk, (read_register_xfer E 0x6f sk).1 &&& 0x40 ≠ 0 ∧
          ∀ n, n0 ≤ n → write_eeprom E n filename s = Res.ret () s1 t)) ∧
      last_ctl t = some 0x00) := by
  refine ⟨?_, ?_, ?_⟩
  · obtain ⟨n0, s1, b0, b1, t, ht, hrun⟩ := read_eeprom_word_run hb hlive a s
    exact ⟨n0, s1, (b0, b1), t, hrun, last_ctl_read_word ht⟩
  · obtain ⟨n0, s1, t, ht, hrun⟩ := write_eeprom_word_run hb a buf s
    exact ⟨n0, s1, t, hrun, last_ctl_write_word ht⟩
  · obtain ⟨n0, s1, t, h | h⟩ := write_eeprom_run hb hlive filename img hfile hlen s
    · obtain ⟨pw0, pw1, sk, hv, ha, hrun⟩ := h
      exact ⟨n0, s1, t, Or.inl ⟨sk, hv, hrun⟩, last_ctl_auth ha⟩
    · obtain ⟨sk, hv, hp, hrun⟩ := h
      exact ⟨n0, s1, t, Or.inr ⟨sk, hv, hrun⟩, last_ctl_program hp⟩

theorem eeprom_operations_end_locked_witness :
    (∃ n0 s1 b t,
      (∀ n, n0 ≤ n → read_eeprom_word (constEnv 0x40 sample_image) n 0x34 () = Res.ret b s1 t) ∧
      last_ctl t = some 0x00) ∧
    (∃ n0 s1 t,
      (∀ n, n0 ≤ n →
        write_eeprom_word (constEnv 0x40 sample_image) n 0x34 (1, 2) () = Res.ret () s1 t) ∧
      last_ctl t = some 0x00) ∧
    (∃ n0 s1 t,
      ((∃ sk, (read_register_xfer (constEnv 0x40 sample_image) 0x6f sk).1 &&& 0x40 = 0 ∧
          ∀ n, n0 ≤ n → write_eeprom (constEnv 0x40 sample_image) n "image.bin" () =
            Res.exit Fatal.auth_failed s1 t) ∨
       (∃ sk, (read_register_xfer (constEnv 0x40 sample_image) 0x6f sk).1 &&& 0x40 ≠ 0 ∧
          ∀ n, n0 ≤ n → write_eeprom (constEnv 0x40 sample_image) n "image.bin" () =
            Res.ret () s1 t)) ∧
      last_ctl t = some 0x00) :=
  eeprom_operations_end_locked (constEnv 0x40 sample_image) "image.bin" sample_image rfl rfl
    (List.length_range 128) (constEnv_busy_clears 0x40 sample_image (by decide)) 0x34 (1, 2) ()

/-! ## Busy polling before EEPROM register writes -/

/-- C4: on a live device whose busy flag eventually clears, in the register
accesses of `eeprom_lock`, `read_eeprom_word`, `write_eeprom_word` and
`write_eeprom` (with a 128-byte image file, whichever way the authentication
ends), every write to one of the EEPROM registers 0x5c, 0x5d, 0x5e, 0x5f comes
directly after a read of the control register 0x5f that returned a byte with
bit 7 (busy) clear. -/
theorem eeprom_writes_follow_idle_poll (E : Env σ) (filename : String) (img : List Nat)
    (hlive : E.eeprom_in = none) (hfile : E.fs filename = some img) (hlen : img.length = 128)
    (hb : BusyClears E) (a : Nat) (buf : Nat × Nat) (s : σ) :
    (∃ n0 s1 t, (∀ n, n0 ≤ n → eeprom_lock E n s = Res.ret () s1 t) ∧ Guarded t) ∧
    (∃ n0 s1 b t, (∀ n, n0 ≤ n → read_eeprom_word E n a s = Res.ret b s1 t) ∧ Guarded t) ∧
    (∃ n0 s1 t, (∀ n, n0 ≤ n → write_eeprom_word E n a buf s = Res.ret () s1 t) ∧
      Guarded t) ∧
    (∃ n0 s1 t,
      ((∀ n, n0 ≤ n → write_eeprom E n filename s = Res.exit Fatal.auth_failed s1 t) ∨
       (∀ n, n0 ≤ n → write_eeprom E n filename s = Res.ret () s1 t)) ∧
      Guarded t) := by
  refine ⟨?_, ?_, ?_, ?_⟩
  · obtain ⟨n0, s1, t, ht, hrun⟩ := eeprom_lock_run hb s
    exact ⟨n0, s1, t, hrun, guarded_lock ht⟩
  · obtain ⟨n0, s1, b0, b1, t, ht, hrun⟩ := read_eeprom_word_run hb hlive a s
    exact ⟨n0, s1, (b0, b1), t, hrun, guarded_read_word ht⟩
  · obtain ⟨n0, s1, t, ht, hrun⟩ := write_eeprom_word_run hb a buf s
    exact ⟨n0, s1, t, hrun, guarded_write_word ht⟩
  · obtain ⟨n0, s1, t, h | h⟩ := write_eeprom_run hb hlive filename img hfile hlen s
    · obtain ⟨pw0, pw1, sk, -, ha, hrun⟩ := h
      exact ⟨n0, s1, t, Or.inl hrun, guarded_auth ha⟩
    · obtain ⟨sk, -, hp, hrun⟩ := h
      exact ⟨n0, s1, t, Or.inr hrun, guarded_program hp⟩

theorem eeprom_writes_follow_idle_poll_witness :
    (∃ n0 s1 t, (∀ n, n0 ≤ n → eeprom_lock (constEnv 0 sample_image) n () = Res.ret () s1 t) ∧
      Guarded t) ∧
    (∃ n0 s1 b t,
      (∀ n, n0 ≤ n → read_eeprom_word (constEnv 0 sample_image) n 0x7a () = Res.ret b s1 t) ∧
      Guarded t) ∧
    (∃ n0 s1 t,
      (∀ n, n0 ≤ n →
        write_eeprom_word (constEnv 0 sample_image) n 0x7a (3, 4) () = Res.ret () s1 t) ∧
      Guarded t) ∧
    (∃ n0 s1 t,
      ((∀ n, n0 ≤ n → write_eeprom (constEnv 0 sample_image) n "image.bin" () =
          Res.exit Fatal.auth_failed s1 t) ∨
       (∀ n, n0 ≤ n → write_eeprom (constEnv 0 sample_image) n "image.bin" () =
          Res.ret () s1 t)) ∧
      Guarded t) :=
  eeprom_writes_follow_idle_poll (constEnv 0 sample_image) "image.bin" sample_image rfl rfl
    (List.length_range 128) (constEnv_busy_clears 0 sample_image (by decide)) 0x7a (3, 4) ()

/-! ## Image length validation -/

/-- C6: when the image file does not hold exactly 128 bytes, `write_eeprom`
terminates with the input error before any register access: the list of
accesses is empty and the bus handle is untouched, whatever the poll budget. -/
theorem write_eeprom_rejects_wrong_length (E : Env σ) (fuel : Nat) (filename : String)
    (f : List Nat) (hfile : E.fs filename = some f) (hlen : f.length ≠ 128) (s : σ) :
    write_eeprom E fuel filename s = Res.exit Fatal.not_128_bytes s [] := by
  have h : (128 : Nat) ≠ f.length := fun h => hlen h.symm
  simp only [write_eeprom, hfile, ne_eq, h, not_false_eq_true, if_true, fatal_apply]

theorem write_eeprom_rejects_wrong_length_witness :
    write_eeprom (constEnv 0x40 (List.replicate 127 0)) 5 "short.bin" () =
        Res.exit Fatal.not_128_bytes () [] ∧
      write_eeprom (constEnv 0x40 (List.replicate 129 0)) 5 "long.bin" () =
        Res.exit Fatal.not_128_bytes () [] :=
  ⟨write_eeprom_rejects_wrong_length (constEnv 0x40 (List.replicate 127 0)) 5 "short.bin"
      (List.replicate 127 0) rfl (by simp) (),
    write_eeprom_rejects_wrong_length (constEnv 0x40 (List.replicate 129 0)) 5 "long.bin"
      (List.replicate 129 0) rfl (by simp) ()⟩

/-! ## Register reads without acknowledgment -/

/-- C7 (behaviour of the code): when the device acknowledges nothing,
`read_register` performs no bus read and still returns normally, handing the
content of the uninitialised local `rv` (0xAB in this run) to its caller as
the register value; no failure is reported. -/
theorem read_register_nack_returns_uninit (reg : Nat) :
    read_register nackEnv reg () = Res.ret 0xAB () [Ev.rd reg 0xAB] := by
  simp [read_register, read_register_xfer, nackEnv, nackMpsse]

/-! ## Telemetry decoding -/

theorem read_register_xfer_lt (E : Env σ) (reg : Nat) (s : σ) :
    (read_register_xfer E reg s).1 < 256 := by
  unfold read_register_xfer
  simp only []
  split
  · split
    · split <;> exact Nat.mod_lt _ (by norm_num)
    · exact Nat.mod_lt _ (by norm_num)
  · exact Nat.mod_lt _ (by norm_num)

theorem read_cell_voltage_run (E : Env σ) (cell : Nat) (hc : cell < 13) (s : σ) :
    ∃ lo hi s1, lo < 256 ∧ hi < 256 ∧
      read_cell_voltage E cell s =
        Res.ret ((hi <<< 5) + (lo >>> 3)) s1
          [Ev.rd (0x32 + 2 * cell) lo, Ev.rd (0x33 + 2 * cell) hi] := by
  have h1 := read_register_xfer_lt E (50 + 2 * cell) s
  have h2 := read_register_xfer_lt E (51 + 2 * cell) (read_register_xfer E (50 + 2 * cell) s).2
  refine ⟨_, _, (read_register_xfer E (51 + 2 * cell)
    (read_register_xfer E (50 + 2 * cell) s).2).2, h1, h2, ?_⟩
  simp only [read_cell_voltage, hc, if_true, bind_apply, read_register_apply, Res.andThen,
    Res.emit, pure_apply, List.append_nil, List.singleton_append,
    show (50 + cell * 2) % 256 = 50 + 2 * cell by omega,
    show (51 + cell * 2) % 256 = 51 + 2 * cell by omega]
  rw [Nat.mod_eq_of_lt]
  rw [Nat.shiftLeft_eq, Nat.shiftRight_eq_div_pow]
  have := Nat.div_le_self (read_register_xfer E (50 + 2 * cell) s).1 (2 ^ 3)
  omega

/-- C8: for a cell index below 13, `read_cell_voltage` reads `lo` from
register 0x32 + 2 * cell, then `hi` from register 0x33 + 2 * cell, performs
no other register access and returns `(hi << 5) + (lo >> 3)`; for an index of
13 or more the assertion fails before any register access.  `adc2mv` scales a
sample by 1.22 = 61/50: the bytes hi = 0x01, lo = 0x00 give the sample 32 and
39.04 mV. -/
theorem read_cell_voltage_decodes (E : Env σ) (cell : Nat) (s : σ) :
    (cell < 13 → ∃ lo hi s1, lo < 256 ∧ hi < 256 ∧
      read_cell_voltage E cell s =
        Res.ret ((hi <<< 5) + (lo >>> 3)) s1
          [Ev.rd (0x32 + 2 * cell) lo, Ev.rd (0x33 + 2 * cell) hi]) ∧
    (13 ≤ cell → read_cell_voltage E cell s = Res.exit Fatal.assert_failed s []) ∧
    (∀ sample : Int, adc2mv sample = 61 / 50 * sample) ∧
    (0x01 <<< 5) + (0x00 >>> 3) = 32 ∧ adc2mv 32 = 39.04 := by
  refine ⟨fun hc => read_cell_voltage_run E cell hc s, fun hc => ?_, fun sample => ?_,
    by decide, ?_⟩
  · simp only [read_cell_voltage, show ¬ cell < 13 by omega, if_false, fatal_apply]
  · simp only [adc2mv]; norm_num
  · simp only [adc2mv]; norm_num

theorem read_sense_resistor_run {E : Env σ} (hb : BusyClears E) (hlive : E.eeprom_in = none)
    (s : σ) :
    ∃ n0 s1 b0 b1 t, ReadWordTrace 0x34 b0 b1 t ∧
      ∀ n, n0 ≤ n → read_sense_resistor E n s = Res.ret (spec_sense b0) s1 t := by
  obtain ⟨n0, s1, b0, b1, t, ht, hrun⟩ := read_eeprom_word_run hb hlive 0x34 s
  refine ⟨n0, s1, b0, b1, t, ht, fun n hn => ?_⟩
  simp only [read_sense_resistor, bind_apply, hrun n hn, Res.andThen, pure_apply, Res.emit,
    List.append_nil, spec_sense]
  by_cases h : b0 = 0 <;> simp [h]

/-- C9: on a live device whose busy flag eventually clears, `read_current`
reads `lo` from register 0x54 and `hi` from register 0x55, then the sense
resistor word at EEPROM address 0x34, whose byte `b` read from 0x5c is the
stored sense byte, and returns, in exact rational arithmetic,
`((hi * 256 + lo) * 7.63 / 1000000) / (s / 10000)` with `s = 25` if `b = 0`
and `s = b` otherwise.  `read_sense_resistor` returns that `s`: a stored 0
gives 25, a stored 10 gives 10, and the divisor `s / 10000` is never zero.
The raw word 1000 (hi = 0x03, lo = 0xE8) with a stored 0, that is s = 25,
gives 3.052 A. -/
theorem read_current_formula (E : Env σ) (hlive : E.eeprom_in = none) (hb : BusyClears E)
    (s : σ) :
    (∃ n0 s1 lo hi b b1 t, lo < 256 ∧ hi < 256 ∧ ReadWordTrace 0x34 b b1 t ∧
      ∀ n, n0 ≤ n → read_current E n s =
        Res.ret ((((hi * 256 + lo : ℕ) : ℚ) * 7.63 / 1000000) / (((spec_sense b : ℕ) : ℚ) / 10000))
          s1 (Ev.rd 0x54 lo :: Ev.rd 0x55 hi :: t)) ∧
    (∃ n0 s1 b b1 t, ReadWordTrace 0x34 b b1 t ∧
      ∀ n, n0 ≤ n → read_sense_resistor E n s = Res.ret (spec_sense b) s1 t) ∧
    spec_sense 0 = 25 ∧ spec_sense 10 = 10 ∧
    (∀ b : Nat, spec_sense b = if b = 0 then 25 else b) ∧
    (∀ b : Nat, ((spec_sense b : ℕ) : ℚ) / 10000 ≠ 0) ∧
    (0x03 * 256 + 0xE8 = 1000 ∧ spec_current 0xE8 0x03 0 = 3.052) := by
  refine ⟨?_, read_sense_resistor_run hb hlive s, rfl, rfl, fun b => rfl, fun b => ?_, rfl, ?_⟩
  · have h1 := read_register_xfer_lt E 0x54 s
    have h2 := read_register_xfer_lt E 0x55 (read_register_xfer E 0x54 s).2
    obtain ⟨n0, s1, b0, b1, t, ht, hrun⟩ :=
      read_sense_resistor_run hb hlive (read_register_xfer E 0x55 (read_register_xfer E 0x54 s).2).2
    refine ⟨n0, s1, _, _, b0, b1, t, h1, h2, ht, fun n hn => ?_⟩
    simp only [read_current, bind_apply, read_register_apply, Res.andThen, Res.emit, pure_apply,
      hrun n hn, List.append_nil, List.singleton_append]
    have hraw : ((read_register_xfer E 0x55 (read_register_xfer E 0x54 s).2).1 <<< 8 +
        (read_register_xfer E 0x54 s).1) % 2 ^ 32 =
        (read_register_xfer E 0x55 (read_register_xfer E 0x54 s).2).1 * 256 +
          (read_register_xfer E 0x54 s).1 := by
      rw [Nat.shiftLeft_eq, Nat.mod_eq_of_lt]
      omega
    rw [hraw]
    norm_num
  · have h : 0 < spec_sense b := by
      unfold spec_sense
      split <;> omega
    have h2 : ((spec_sense b : ℕ) : ℚ) ≠ 0 := by exact_mod_cast h.ne'
    exact div_ne_zero h2 (by norm_num)
  · norm_num [spec_current, spec_sense]

theorem read_current_formula_witness :
    (∃ n0 s1 lo hi b b1 t, lo < 256 ∧ hi < 256 ∧ ReadWordTrace 0x34 b b1 t ∧
      ∀ n, n0 ≤ n → read_current (constEnv 0x0A sample_image) n () =
        Res.ret ((((hi * 256 + lo : ℕ) : ℚ) * 7.63 / 1000000) / (((spec_sense b : ℕ) : ℚ) / 10000))
          s1 (Ev.rd 0x54 lo :: Ev.rd 0x55 hi :: t)) ∧
    (∃ n0 s1 b b1 t, ReadWordTrace 0x34 b b1 t ∧
      ∀ n, n0 ≤ n →
        read_sense_resistor (constEnv 0x0A sample_image) n () = Res.ret (spec_sense b) s1 t) ∧
    spec_sense 0 = 25 ∧ spec_sense 10 = 10 ∧
    (∀ b : Nat, spec_sense b = if b = 0 then 25 else b) ∧
    (∀ b : Nat, ((spec_sense b : ℕ) : ℚ) / 10000 ≠ 0) ∧
    (0x03 * 256 + 0xE8 = 1000 ∧ spec_current 0xE8 0x03 0 = 3.052) :=
  read_current_formula (constEnv 0x0A sample_image) rfl
    (constEnv_busy_clears 0x0A sample_image (by decide)) ()

/-- C10 (as stated, refuted): with both cell voltage registers of cell 0
reading 0xFF, `read_cell_voltage` returns 8191, which is not below 2^11. -/
theorem read_cell_voltage_exceeds_11_bits :
    read_cell_voltage (constEnv 0xFF []) 0 () =
        Res.ret 8191 () [Ev.rd 0x32 0xFF, Ev.rd 0x33 0xFF] ∧
      ¬ 8191 < 2 ^ 11 := by
  refine ⟨?_, by decide⟩
  simp [read_cell_voltage, bind_apply, read_register_apply, constEnv_read, Res.andThen,
    Res.emit, pure_apply]

/-- C10 (amended): for every cell index in 0..12 and all values of the two
raw register bytes, the sample returned by `read_cell_voltage`, formed as
`(hi << 5) + (lo >> 3)`, is a 13-bit value: it is strictly less than
2^13 = 8192. -/
theorem read_cell_voltage_lt_13_bits (E : Env σ) (cell : Nat) (hcell : cell < 13) (s : σ) :
    ∃ v s1 t, read_cell_voltage E cell s = Res.ret v s1 t ∧ v < 2 ^ 13 := by
  obtain ⟨lo, hi, s1, hlo, hhi, h⟩ := read_cell_voltage_run E cell hcell s
  refine ⟨_, _, _, h, ?_⟩
  rw [Nat.shiftLeft_eq, Nat.shiftRight_eq_div_pow]
  have := Nat.div_le_self lo (2 ^ 3)
  omega

theorem read_cell_voltage_lt_13_bits_witness :
    ∃ v s1 t, read_cell_voltage (constEnv 0xFF []) 12 () = Res.ret v s1 t ∧ v < 2 ^ 13 :=
  read_cell_voltage_lt_13_bits (constEnv 0xFF []) 12 (by decide) ()

/-! ## Round trip on the simulated chip -/

theorem mock_read (f : List Nat) (reg : Nat) (b : Bus) :
    read_register_xfer (mockEnv f) reg b =
      ((chip_read b.chip reg).1 % 256, Bus.rest (chip_read b.chip reg).2 reg) := by
  simp [read_register_xfer, mockEnv, mockMpsse, address, Bus.rest]

theorem mock_write (f : List Nat) (reg v : Nat) (b : Bus) :
    write_register_xfer (mockEnv f) reg v b = Bus.rest (chip_write b.chip reg v) reg := by
  simp [write_register_xfer, mockEnv, mockMpsse, address, Bus.rest]

theorem mock_while (f : List Nat) (n : Nat) (e : Nat → Nat)
    (ctl addr lo hi pl ph : Nat) (u : Bool) (busy lat : Nat) (sent : List Nat) (ptr nread : Nat)
    (h : busy < n) :
    while_eeprom_busy (mockEnv f) n ⟨⟨e, ctl, addr, lo, hi, pl, ph, u, busy, lat⟩, sent, ptr, nread⟩ =
      Res.ret () ⟨⟨e, ctl, addr, lo, hi, pl, ph, u, 0, lat⟩, [], 0x5f, 0⟩ (busy_polls busy) := by
  induction n generalizing busy sent ptr nread with
  | zero => omega
  | succ n ih =>
    rw [while_succ, mock_read]
    cases busy with
    | zero => simp [chip_read, Bus.rest, busy_polls]
    | succ k =>
      simp [chip_read, Bus.rest, busy_polls, ih k [] 95 0 (by omega), Res.emit,
        List.replicate_succ]

theorem mock_write_word (f : List Nat) (n : Nat) (a : Nat) (buf : Nat × Nat) (b : Bus)
    (hu : b.chip.unlocked = true) (hb : b.chip.busy < n) (hl : b.chip.latency < n) :
    ∃ b1 t, write_eeprom_word (mockEnv f) n a buf b = Res.ret () b1 t ∧
      b1.chip.unlocked = true ∧ b1.chip.busy = b.chip.latency ∧
      b1.chip.latency = b.chip.latency ∧
      b1.chip.eeprom = Function.update (Function.update b.chip.eeprom a buf.1) (a + 1) buf.2 := by
  obtain ⟨⟨e, ctl, addr, lo, hi, pl, ph, u, busy, lat⟩, sent, ptr, nread⟩ := b
  simp only at hu hb hl
  subst hu
  simp [write_eeprom_word, eeprom_lock, bind_apply, Res.andThen, Res.emit, write_register_apply,
    mock_write, mock_while, hb, hl, chip_write, Bus.rest]


theorem mock_read_word (f : List Nat) (n : Nat) (a : Nat) (b : Bus)
    (hb : b.chip.busy < n) (hl : b.chip.latency < n) :
    ∃ b1 t, read_eeprom_word (mockEnv f) n a b =
        Res.ret (b.chip.eeprom a % 256, b.chip.eeprom (a + 1) % 256) b1 t ∧
      b1.chip.unlocked = b.chip.unlocked ∧ b1.chip.busy = b.chip.latency ∧
      b1.chip.latency = b.chip.latency ∧ b1.chip.eeprom = b.chip.eeprom := by
  obtain ⟨⟨e, ctl, addr, lo, hi, pl, ph, u, busy, lat⟩, sent, ptr, nread⟩ := b
  simp only at hb hl
  have hlive : (mockEnv f).eeprom_in = none := rfl
  have h0 : 0 < n := by omega
  simp [read_eeprom_word, hlive, eeprom_lock, bind_apply, Res.andThen, Res.emit,
    write_register_apply, read_register_apply, pure_apply, mock_write, mock_read, mock_while,
    hb, hl, h0, chip_write, chip_read, Bus.rest]


theorem mock_write_loop (f : List Nat) (n : Nat) (img : List Nat) (k i : Nat)
    (hi : i + 2 * k = 128) (b : Bus)
    (hu : b.chip.unlocked = true) (hb : b.chip.busy < n) (hl : b.chip.latency < n) :
    ∃ b1 t, write_eeprom_loop (mockEnv f) n img i b = Res.ret () b1 t ∧
      b1.chip.busy < n ∧ b1.chip.latency = b.chip.latency ∧
      b1.chip.eeprom = fun j => if i ≤ j ∧ j < 128 then img.getD j 0 else b.chip.eeprom j := by
  induction k generalizing i b with
  | zero =>
    refine ⟨b, [], ?_, hb, rfl, ?_⟩
    · rw [write_eeprom_loop]
      simp [eeprom_size, show ¬ i < 128 by omega, pure_apply]
    · funext j
      simp only [show ¬ (i ≤ j ∧ j < 128) by omega, if_false]
  | succ k ih =>
    obtain ⟨b1, t1, h1, hu1, hb1, hl1, he1⟩ :=
      mock_write_word f n i (img.getD i 0, img.getD (i + 1) 0) b hu hb hl
    obtain ⟨b2, t2, h2, hb2, hl2, he2⟩ :=
      ih (i + 2) (by omega) b1 hu1 (by omega) (by omega)
    refine ⟨b2, t1 ++ t2, ?_, hb2, by omega, ?_⟩
    · rw [write_eeprom_loop]
      simp only [eeprom_size, show i < 128 by omega, if_true, bind_apply,
        show i % 256 = i by omega, h1, h2, Res.andThen, Res.emit]
    · rw [he2, he1]
      funext j
      by_cases hj : i + 2 ≤ j ∧ j < 128
      · simp only [hj, and_self, if_true, show i ≤ j ∧ j < 128 by omega]
      · simp only [hj, if_false, Function.update_apply]
        split
        · simp only [show i ≤ j ∧ j < 128 by omega, and_self, if_true]
          subst_vars
          rfl
        · split
          · simp only [show i ≤ j ∧ j < 128 by omega, and_self, if_true]
            subst_vars
            rfl
          · simp only [show ¬ (i ≤ j ∧ j < 128) by omega, if_false]

theorem mock_read_loop (f : List Nat) (n : Nat) (k i : Nat) (hi : i + 2 * k = 128) (b : Bus)
    (hb : b.chip.busy < n) (hl : b.chip.latency < n) (rv : List Nat) (hrv : rv.length = 128) :
    ∃ rv1 b1 t, read_eeprom_loop (mockEnv f) n i rv b = Res.ret rv1 b1 t ∧
      rv1.length = 128 ∧
      ∀ j, j < 128 → rv1.getD j 0 = if i ≤ j then b.chip.eeprom j % 256 else rv.getD j 0 := by
  induction k generalizing i b rv with
  | zero =>
    refine ⟨rv, b, [], ?_, hrv, fun j hj => ?_⟩
    · rw [read_eeprom_loop]
      simp [eeprom_size, show ¬ i < 128 by omega, pure_apply]
    · simp only [show ¬ i ≤ j by omega, if_false]
  | succ k ih =>
    obtain ⟨b1, t1, h1, -, hb1, hl1, he1⟩ := mock_read_word f n i b hb hl
    obtain ⟨rv2, b2, t2, h2, hlen2, hget2⟩ :=
      ih (i + 2) (by omega) b1 (by omega) (by omega)
        ((rv.set i (b.chip.eeprom i % 256)).set (i + 1) (b.chip.eeprom (i + 1) % 256))
        (by simp [hrv])
    refine ⟨rv2, b2, t1 ++ t2, ?_, hlen2, fun j hj => ?_⟩
    · rw [read_eeprom_loop]
      simp only [eeprom_size, show i < 128 by omega, if_true, bind_apply,
        show i % 256 = i by omega, h1, h2, Res.andThen, Res.emit]
    · rw [hget2 j hj, he1]
      by_cases h2 : i + 2 ≤ j
      · simp only [h2, if_true, show i ≤ j by omega]
      · simp only [h2, if_false]
        by_cases h0 : i ≤ j
        · simp only [h0, if_true]
          have hj2 : j = i ∨ j = i + 1 := by omega
          rcases hj2 with rfl | rfl
          · simp [List.getD_eq_getElem?_getD, List.getElem?_set, hrv, hj]
          · simp [List.getD_eq_getElem?_getD, List.getElem?_set, hrv, hj]
        · simp only [h0, if_false]
          simp [List.getD_eq_getElem?_getD, List.getElem?_set, show ¬ i + 1 = j by omega,
            show ¬ i = j by omega]


theorem mock_write_eeprom (img : List Nat) (hlen : img.length = 128) (n : Nat)
    (filename : String) (b : Bus) (hb : b.chip.busy < n) (hl : b.chip.latency < n) :
    ∃ b1 t, write_eeprom (mockEnv img) n filename b = Res.ret () b1 t ∧
      b1.chip.busy < n ∧ b1.chip.latency = b.chip.latency ∧
      ∀ j, j < 128 → b1.chip.eeprom j = img.getD j 0 := by
  obtain ⟨⟨e, ctl, addr, lo, hi, pl, ph, u, busy, lat⟩, sent, ptr, nread⟩ := b
  simp only at hb hl
  have hlive : (mockEnv img).eeprom_in = none := rfl
  have hfile : (mockEnv img).fs filename = some img := rfl
  have htake : List.take 128 img = img := List.take_of_length_le (by omega)
  have h0 : 0 < n := by omega
  obtain ⟨b1, t1, h1, hb1, hl1, he1⟩ := mock_write_loop img n img 64 0 (by omega)
    ⟨⟨fun _ => 255, 83, 122, e 122, e 123, e 122 % 256, e 123 % 256, true, lat, lat⟩, [], 95, 0⟩
    rfl hl hl
  refine ⟨b1, ?_⟩
  simp [write_eeprom, hfile, hlen, eeprom_size, htake, read_eeprom_word, hlive, eeprom_lock,
    bind_apply, Res.andThen, Res.emit,
    write_register_apply, read_register_apply, pure_apply, mock_write, mock_read, mock_while,
    hb, hl, h0, chip_write, chip_read, Bus.rest, fatal_apply, h1]
  refine ⟨hb1, hl1, fun j hj => ?_⟩
  rw [he1]
  simp [hj]


theorem read_eeprom_loop_run {E : Env σ} (hb : BusyClears E) (hlive : E.eeprom_in = none)
    (k i : Nat) (hi : i + 2 * k = 128) (rv : List Nat) (s : σ) :
    ∃ n0 s1 rv1 t, ∀ n, n0 ≤ n → read_eeprom_loop E n i rv s = Res.ret rv1 s1 t := by
  induction k generalizing i rv s with
  | zero =>
    refine ⟨0, s, rv, [], fun n _ => ?_⟩
    rw [read_eeprom_loop]
    simp [eeprom_size, show ¬ i < 128 by omega, pure_apply]
  | succ k ih =>
    obtain ⟨n1, s1, b0, b1, w, -, h1⟩ := read_eeprom_word_run hb hlive i s
    obtain ⟨n2, s2, rv2, rest, h2⟩ := ih (i + 2) (by omega) ((rv.set i b0).set (i + 1) b1) s1
    refine ⟨n1 + n2, s2, rv2, w ++ rest, fun n hn => ?_⟩
    rw [read_eeprom_loop]
    simp only [eeprom_size, show i < 128 by omega, if_true, bind_apply,
      show i % 256 = i by omega, h1 n (by omega), h2 n (by omega), Res.andThen, Res.emit]

theorem mock_busy_clears (f : List Nat) : BusyClears (mockEnv f) := by
  rintro ⟨⟨e, ctl, addr, lo, hi, pl, ph, u, busy, lat⟩, sent, ptr, nread⟩
  refine ⟨busy + 1, ?_⟩
  rw [mock_while f (busy + 1) e ctl addr lo hi pl ph u busy lat sent ptr nread (by omega)]
  simp

theorem list_eq_of_getD (l1 l2 : List Nat) (h1 : l1.length = 128) (h2 : l2.length = 128)
    (h : ∀ j, j < 128 → l1.getD j 0 = l2.getD j 0) : l1 = l2 := by
  apply List.ext_getElem (by omega)
  intro j hj1 hj2
  have := h j (by omega)
  simpa [List.getD_eq_getElem?_getD, List.getElem?_eq_getElem hj1,
    List.getElem?_eq_getElem hj2] using this

/-- C5: round trip on the chip.  For every 128-byte image (bytes below 256),
whatever the state of the chip and of the bus, `write_eeprom` with that image
returns, and `read_eeprom` run next from the state it left returns exactly
the image, for every sufficiently large poll budget. -/
theorem write_then_read_eeprom (img : List Nat) (hlen : img.length = 128)
    (hbyte : ∀ x ∈ img, x < 256) (filename : String) (b : Bus) :
    ∃ n0 b1 t1 b2 t2, ∀ n, n0 ≤ n →
      write_eeprom (mockEnv img) n filename b = Res.ret () b1 t1 ∧
      read_eeprom (mockEnv img) n b1 = Res.ret img b2 t2 := by
  have hbc := mock_busy_clears img
  obtain ⟨nW, s1, t1, hW⟩ := write_eeprom_run hbc rfl filename img rfl hlen b
  obtain ⟨bm, tm, hm, hbm, hlm, hem⟩ := mock_write_eeprom img hlen
    (nW + b.chip.busy + b.chip.latency + 1) filename b (by omega) (by omega)
  have hret : ∀ n, nW ≤ n → write_eeprom (mockEnv img) n filename b = Res.ret () s1 t1 := by
    rcases hW with ⟨pw0, pw1, sk, -, -, h⟩ | ⟨sk, -, -, h⟩
    · have := h (nW + b.chip.busy + b.chip.latency + 1) (by omega)
      rw [hm] at this
      cases this
    · exact h
  have hs1 : bm = s1 := by
    have := hret (nW + b.chip.busy + b.chip.latency + 1) (by omega)
    rw [hm] at this
    injection this
  subst hs1
  obtain ⟨nR, s2, rv, t2, hR⟩ := read_eeprom_loop_run hbc rfl 64 0 (by omega)
    (List.replicate eeprom_size 0) bm
  obtain ⟨rv1, b2, t3, h3, hlen3, hget3⟩ := mock_read_loop img
    (nR + bm.chip.busy + bm.chip.latency + 1) 64 0 (by omega) bm (by omega) (by omega)
    (List.replicate eeprom_size 0) (by simp [eeprom_size])
  have hrv : rv = img := by
    have := hR (nR + bm.chip.busy + bm.chip.latency + 1) (by omega)
    rw [h3] at this
    injection this with h _ _
    subst h
    apply list_eq_of_getD _ _ hlen3 hlen
    intro j hj
    rw [hget3 j hj, hem j hj]
    simp only [Nat.zero_le, if_true]
    apply Nat.mod_eq_of_lt
    apply hbyte
    rw [List.getD_eq_getElem _ _ (by omega)]
    exact List.getElem_mem _
  subst hrv
  exact ⟨nW + nR, bm, t1, s2, t2, fun n hn => ⟨hret n (by omega), hR n (by omega)⟩⟩

theorem write_then_read_eeprom_witness :
    ∃ n0 b1 t1 b2 t2, ∀ n, n0 ≤ n →
      write_eeprom (mockEnv sample_image) n "image.bin" fresh_bus = Res.ret () b1 t1 ∧
      read_eeprom (mockEnv sample_image) n b1 = Res.ret sample_image b2 t2 :=
  write_then_read_eeprom sample_image (List.length_range 128)
    (fun x hx => by
      have := List.mem_range.mp hx
      omega)
    "image.bin" fresh_bus

end OZ890
